import Mathlib

/-!
Verification of the memgraph replay service against its natural-language
specification.  The Python sources under `src/` are shallowly embedded:
mutable dictionaries become insertion-ordered association lists, asyncio
methods become pure state-passing functions, and the database becomes an
explicit oracle.  Each claim of the specification is settled by a theorem
about these definitions.
-/

/- ## Association-list helpers (model of Python's insertion-ordered dict) -/

/-- Lookup in an insertion-ordered association list (Python `d[k]` / `d.get(k)`). -/
def alookup {α : Type} : List (String × α) → String → Option α
  | [], _ => none
  | (k', v) :: rest, k => if k' = k then some v else alookup rest k

/-- Update/insert in an insertion-ordered association list (Python `d[k] = v`):
an existing key keeps its position, a new key is appended at the end. -/
def aset {α : Type} : List (String × α) → String → α → List (String × α)
  | [], k, v => [(k, v)]
  | (k', v') :: rest, k, v =>
    if k' = k then (k', v) :: rest else (k', v') :: aset rest k v

theorem alookup_eq_some_of_mem {α : Type} {l : List (String × α)} {t : String} {v : α}
    (hnd : (l.map Prod.fst).Nodup) (hm : (t, v) ∈ l) : alookup l t = some v := by
  induction l with
  | nil => cases hm
  | cons p rest ih =>
    obtain ⟨k', v'⟩ := p
    simp only [List.map_cons, List.nodup_cons] at hnd
    rcases List.mem_cons.1 hm with heq | hmem
    · cases heq
      simp [alookup]
    · have hne : k' ≠ t := by
        intro h
        exact hnd.1 (h ▸ (List.mem_map.2 ⟨(t, v), hmem, rfl⟩))
      simp [alookup, hne, ih hnd.2 hmem]

theorem alookup_aset_self {α : Type} (l : List (String × α)) (k : String) (v : α) :
    alookup (aset l k v) k = some v := by
  induction l with
  | nil => simp [aset, alookup]
  | cons p rest ih =>
    obtain ⟨k', v'⟩ := p
    by_cases h : k' = k
    · simp [aset, alookup, h]
    · simp [aset, alookup, h, ih]

/- ## BatchProcessor (src/src/processors/batch_processor.py) -/

/-- `BatchProcessor.add_to_buffer` (lines 70-74): `self._buffer[topic].append(data)`
on a `defaultdict(list)` — append to the existing entry, or create a new entry at
the end of the dict. -/
def add_to_buffer {ρ : Type} : List (String × List ρ) → String → ρ → List (String × List ρ)
  | [], t, d => [(t, [d])]
  | (t', xs) :: rest, t, d =>
    if t' = t then (t', xs ++ [d]) :: rest else (t', xs) :: add_to_buffer rest t d

/-- Result of the extraction phase of `BatchProcessor.process_batch`
(the state visible after the `async with self._global_lock:` block). -/
structure ExtractResult (ρ : Type) where
  batch_data : List (String × ρ)
  items_flushed : Nat
  buffer : List (String × List ρ)

/-- The extraction loop of `BatchProcessor.process_batch` (lines 231-249):
for each topic, take `min(len(buffer), max_batch_size - items_flushed)` items
from the head of the topic's list by slicing, delete the topic's entry when its
list becomes empty, and stop once `items_flushed >= max_batch_size`. -/
def extract_batch {ρ : Type} (maxB : Nat) : List (String × List ρ) → Nat → ExtractResult ρ
  | [], flushed => ⟨[], flushed, []⟩
  | (t, buf) :: rest, flushed =>
    if flushed ≥ maxB then
      -- `if items_flushed >= self.max_batch_size: break` — rest of the dict untouched
      ⟨[], flushed, (t, buf) :: rest⟩
    else
      let toTake := min buf.length (maxB - flushed)
      if toTake > 0 then
        let extracted := buf.take toTake
        let remaining := buf.drop toTake
        let r := extract_batch maxB rest (flushed + toTake)
        ⟨extracted.map (fun d => (t, d)) ++ r.batch_data, r.items_flushed,
          (if remaining.isEmpty then [] else [(t, remaining)]) ++ r.buffer⟩
      else
        -- items_to_take == 0: the (empty) entry is left in place
        let r := extract_batch maxB rest flushed
        ⟨r.batch_data, r.items_flushed, (t, buf) :: r.buffer⟩

/-- Total number of buffered items across all topics. -/
def totalBuffered {ρ : Type} (l : List (String × List ρ)) : Nat :=
  (l.map (fun p => p.2.length)).sum

theorem extract_batch_flushed_le {ρ : Type} (maxB : Nat) :
    ∀ (l : List (String × List ρ)) (f : Nat), f ≤ maxB →
      (extract_batch maxB l f).items_flushed ≤ maxB := by
  intro l
  induction l with
  | nil => intro f hf; simpa [extract_batch] using hf
  | cons p rest ih =>
    intro f hf
    obtain ⟨t, buf⟩ := p
    by_cases hge : f ≥ maxB
    · simpa [extract_batch, hge] using hf
    · have hlt : f < maxB := lt_of_not_ge hge
      by_cases hpos : min buf.length (maxB - f) > 0
      · have : f + min buf.length (maxB - f) ≤ maxB := by omega
        simpa [extract_batch, hge, hpos] using ih _ this
      · simpa [extract_batch, hge, hpos] using ih _ hf

theorem extract_batch_count {ρ : Type} (maxB : Nat) :
    ∀ (l : List (String × List ρ)) (f : Nat),
      (extract_batch maxB l f).items_flushed = f + (extract_batch maxB l f).batch_data.length := by
  intro l
  induction l with
  | nil => intro f; simp [extract_batch]
  | cons p rest ih =>
    intro f
    obtain ⟨t, buf⟩ := p
    by_cases hge : f ≥ maxB
    · simp [extract_batch, hge]
    · by_cases hpos : min buf.length (maxB - f) > 0
      · have hlen : (buf.take (min buf.length (maxB - f))).length = min buf.length (maxB - f) := by
          simp [List.length_take]
        simp only [extract_batch, hge, if_false, ge_iff_le, hpos, if_true]
        simp only [List.length_append, List.length_map, hlen, ih]
        omega
      · simp [extract_batch, hge, hpos, ih]

theorem extract_batch_conserves {ρ : Type} (maxB : Nat) :
    ∀ (l : List (String × List ρ)) (f : Nat),
      totalBuffered l =
        (extract_batch maxB l f).batch_data.length + totalBuffered (extract_batch maxB l f).buffer := by
  intro l
  induction l with
  | nil => simp [extract_batch, totalBuffered]
  | cons p rest ih =>
    intro f
    obtain ⟨t, buf⟩ := p
    by_cases hge : f ≥ maxB
    · simp [extract_batch, hge, totalBuffered]
    · by_cases hpos : min buf.length (maxB - f) > 0
      · set k := min buf.length (maxB - f) with hk
        have hkle : k ≤ buf.length := by omega
        by_cases hrem : (buf.drop k).isEmpty
        · have hdrop : buf.length - k = 0 := by
            have := List.isEmpty_iff_length_eq_zero.1 hrem
            simpa [List.length_drop] using this
          simp only [extract_batch, hge, if_false, ge_iff_le, ← hk, hpos, if_true, hrem,
            totalBuffered, List.map_cons, List.sum_cons, List.length_append, List.length_map,
            List.length_take, List.nil_append]
          have := ih (f + k)
          simp only [totalBuffered] at this
          omega
        · simp only [extract_batch, hge, if_false, ge_iff_le, ← hk, hpos, if_true, hrem,
            Bool.false_eq_true, totalBuffered, List.map_cons, List.sum_cons, List.length_append,
            List.length_map, List.length_take, List.length_drop, List.cons_append,
            List.nil_append]
          have := ih (f + k)
          simp only [totalBuffered] at this
          omega
      · simp only [extract_batch, hge, if_false, ge_iff_le, hpos, if_true,
          totalBuffered, List.map_cons, List.sum_cons]
        have := ih f
        simp only [totalBuffered] at this
        omega

theorem alookup_eq_none_of_not_mem_keys {α : Type} {l : List (String × α)} {t : String}
    (h : t ∉ l.map Prod.fst) : alookup l t = none := by
  induction l with
  | nil => rfl
  | cons p rest ih =>
    obtain ⟨k', v'⟩ := p
    simp only [List.map_cons, List.mem_cons, not_or] at h
    simp [alookup, Ne.symm h.1, ih h.2]

theorem extract_batch_data_keys {ρ : Type} (maxB : Nat) :
    ∀ (l : List (String × List ρ)) (f : Nat) (p : String × ρ),
      p ∈ (extract_batch maxB l f).batch_data → p.1 ∈ l.map Prod.fst := by
  intro l
  induction l with
  | nil => intro f p hp; simp [extract_batch] at hp
  | cons q rest ih =>
    intro f p hp
    obtain ⟨t, buf⟩ := q
    by_cases hge : f ≥ maxB
    · simp [extract_batch, hge] at hp
    · by_cases hpos : min buf.length (maxB - f) > 0
      · simp only [extract_batch, hge, if_false, ge_iff_le, hpos, if_true,
          List.mem_append] at hp
        rcases hp with hp | hp
        · rcases List.mem_map.1 hp with ⟨d, _, rfl⟩
          simp
        · simpa using Or.inr (ih _ p hp)
      · simp only [extract_batch, hge, if_false, ge_iff_le, hpos, if_true] at hp
        simpa using Or.inr (ih _ p hp)

theorem extract_batch_buffer_keys {ρ : Type} (maxB : Nat) :
    ∀ (l : List (String × List ρ)) (f : Nat) (t : String),
      t ∈ (extract_batch maxB l f).buffer.map Prod.fst → t ∈ l.map Prod.fst := by
  intro l
  induction l with
  | nil => intro f t ht; simp [extract_batch] at ht
  | cons q rest ih =>
    intro f t ht
    obtain ⟨t', buf⟩ := q
    by_cases hge : f ≥ maxB
    · simpa [extract_batch, hge] using ht
    · by_cases hpos : min buf.length (maxB - f) > 0
      · simp only [extract_batch, hge, if_false, ge_iff_le, hpos, if_true,
          List.map_append, List.mem_append] at ht
        rcases ht with ht | ht
        · by_cases hrem : (buf.drop (min buf.length (maxB - f))).isEmpty
          · simp [hrem] at ht
          · simp only [hrem, Bool.false_eq_true, if_false, List.map_cons, List.map_nil,
              List.mem_singleton] at ht
            simp [ht]
        · simpa using Or.inr (ih _ t ht)
      · simp only [extract_batch, hge, if_false, ge_iff_le, hpos, if_true,
          List.map_cons, List.mem_cons] at ht
        rcases ht with ht | ht
        · simp [ht]
        · simpa using Or.inr (ih _ t ht)

/-- Per-subject behaviour of the extraction phase: the items extracted for a
subject form a prefix (head slice) of that subject's queue, and the subject's
buffer entry survives as the corresponding tail, being deleted exactly when the
extraction emptied it. -/
theorem extract_batch_subject {ρ : Type} (maxB : Nat) :
    ∀ (l : List (String × List ρ)) (f : Nat), (l.map Prod.fst).Nodup →
      ∀ t buf, (t, buf) ∈ l →
        ∃ k, k ≤ buf.length ∧
          (((extract_batch maxB l f).batch_data.filter (fun p => p.1 == t)).map Prod.snd
              = buf.take k) ∧
          alookup (extract_batch maxB l f).buffer t =
            (if k = buf.length ∧ 0 < buf.length then none else some (buf.drop k)) := by
  intro l
  induction l with
  | nil => intro f _ t buf hm; cases hm
  | cons q rest ih =>
    intro f hnd t buf hm
    obtain ⟨t', buf'⟩ := q
    simp only [List.map_cons, List.nodup_cons] at hnd
    rcases List.mem_cons.1 hm with heq | hmem
    · -- the subject is the head entry
      injection heq with h1 h2
      subst h1
      subst h2
      by_cases hge : f ≥ maxB
      · refine ⟨0, Nat.zero_le _, ?_, ?_⟩
        · simp [extract_batch, hge]
        · have hc : ¬(0 = buf.length ∧ 0 < buf.length) := by omega
          simp [extract_batch, hge, alookup, hc]
      · by_cases hpos : min buf.length (maxB - f) > 0
        · set k := min buf.length (maxB - f) with hk
          refine ⟨k, Nat.min_le_left _ _, ?_, ?_⟩
          · simp only [extract_batch, hge, if_false, ge_iff_le, ← hk, hpos, if_true,
              List.filter_append, List.map_append]
            have h1 : (List.map (fun d => (t, d)) (buf.take k)).filter (fun p => p.1 == t)
                = List.map (fun d => (t, d)) (buf.take k) := by
              refine List.filter_eq_self.2 ?_
              intro a ha
              rcases List.mem_map.1 ha with ⟨d, _, rfl⟩
              simp
            have h2 : (extract_batch maxB rest (f + k)).batch_data.filter
                (fun p => p.1 == t) = [] := by
              refine List.filter_eq_nil.2 ?_
              intro p hp hq
              have hpt : p.1 = t := by simpa using hq
              exact hnd.1 (hpt ▸ extract_batch_data_keys maxB rest (f + k) p hp)
            rw [h1, h2]
            simp [List.map_map, Function.comp]
          · simp only [extract_batch, hge, if_false, ge_iff_le, ← hk, hpos, if_true]
            by_cases hrem : (buf.drop k).isEmpty
            · have hdk : buf.drop k = [] := List.isEmpty_iff.1 hrem
              have hkl : k = buf.length := by
                have := congrArg List.length hdk
                simp only [List.length_drop, List.length_nil] at this
                omega
              have hbne : 0 < buf.length := by omega
              have hnotin : t ∉ (extract_batch maxB rest (f + k)).buffer.map Prod.fst := by
                intro hin
                exact hnd.1 (extract_batch_buffer_keys maxB rest (f + k) t hin)
              have hcond : k = buf.length ∧ 0 < buf.length := ⟨hkl, hbne⟩
              rw [if_pos hrem, List.nil_append, if_pos hcond]
              exact alookup_eq_none_of_not_mem_keys hnotin
            · have hdk : k < buf.length := by
                by_contra hcon
                have : buf.drop k = [] := List.drop_eq_nil_of_le (by omega)
                rw [this] at hrem
                simp at hrem
              have hkl : ¬(k = buf.length ∧ 0 < buf.length) := by omega
              rw [if_neg hrem, if_neg hkl]
              simp [alookup]
        · have hbuf : buf = [] := by
            have : buf.length = 0 := by omega
            exact List.eq_nil_of_length_eq_zero this
          refine ⟨0, Nat.zero_le _, ?_, ?_⟩
          · simp only [extract_batch, hge, if_false, ge_iff_le, hpos, if_true]
            have h2 : (extract_batch maxB rest f).batch_data.filter
                (fun p => p.1 == t) = [] := by
              refine List.filter_eq_nil.2 ?_
              intro p hp hq
              have hpt : p.1 = t := by simpa using hq
              exact hnd.1 (hpt ▸ extract_batch_data_keys maxB rest f p hp)
            simp [h2, hbuf]
          · have hc : ¬(0 = buf.length ∧ 0 < buf.length) := by omega
            simp [extract_batch, hge, hpos, alookup, hc]
    · -- the subject lies in the tail of the dict
      have htne : t ≠ t' := by
        intro h
        exact hnd.1 (h ▸ List.mem_map.2 ⟨(t, buf), hmem, rfl⟩)
      by_cases hge : f ≥ maxB
      · refine ⟨0, Nat.zero_le _, ?_, ?_⟩
        · simp [extract_batch, hge]
        · have hc : ¬(0 = buf.length ∧ 0 < buf.length) := by omega
          have := alookup_eq_some_of_mem hnd.2 hmem
          simp [extract_batch, hge, alookup, Ne.symm htne, this, hc]
      · by_cases hpos : min buf'.length (maxB - f) > 0
        · set k0 := min buf'.length (maxB - f) with hk0
          obtain ⟨k, hkle, hfil, hlook⟩ := ih (f + k0) hnd.2 t buf hmem
          refine ⟨k, hkle, ?_, ?_⟩
          · simp only [extract_batch, hge, if_false, ge_iff_le, ← hk0, hpos, if_true,
              List.filter_append, List.map_append]
            have h1 : (List.map (fun d => (t', d)) (buf'.take k0)).filter
                (fun p => p.1 == t) = [] := by
              refine List.filter_eq_nil.2 ?_
              intro p hp hq
              rcases List.mem_map.1 hp with ⟨d, _, rfl⟩
              have hq' : t' = t := by simpa using hq
              exact htne hq'.symm
            rw [h1]
            simpa using hfil
          · simp only [extract_batch, hge, if_false, ge_iff_le, ← hk0, hpos, if_true]
            by_cases hrem : (buf'.drop k0).isEmpty
            · rw [if_pos hrem, List.nil_append]
              exact hlook
            · rw [if_neg hrem]
              simpa [alookup, Ne.symm htne] using hlook
        · obtain ⟨k, hkle, hfil, hlook⟩ := ih f hnd.2 t buf hmem
          refine ⟨k, hkle, ?_, ?_⟩
          · simpa [extract_batch, hge, hpos] using hfil
          · simpa [extract_batch, hge, hpos, alookup, Ne.symm htne] using hlook

/-- Result of one `cypher_builder.build_queries(topic, data, current_tick)` call as
consumed by `process_batch` (lines 252-268): `None`, a single `(batch_type, row)`
tuple, or a list of such tuples. -/
inductive BuildResult (ρ : Type) where
  | skip
  | single (kind : String) (row : ρ)
  | many (items : List (String × ρ))

/-- The items a build result contributes to `batch_groups` (lines 254-268):
a falsy result (`None` or an empty list) contributes nothing; a tuple or a list
item contributes its `(batch_type, row)` when both `batch_type` and `row` are
truthy (`if batch_type and row`).  `rowTruthy` is Python truthiness of the row. -/
def itemsOf {ρ : Type} (rowTruthy : ρ → Bool) : BuildResult ρ → List (String × ρ)
  | .skip => []
  | .single k r => if k ≠ "" ∧ rowTruthy r then [(k, r)] else []
  | .many items =>
    if items.isEmpty then []
    else items.filter (fun kr => kr.1 != "" && rowTruthy kr.2)

/-- `batch_groups[batch_type].append(row)` with the
`if batch_type not in batch_groups: batch_groups[batch_type] = []` guard:
append to the existing group, or create a new group at the end of the dict. -/
def appendGroup {ρ : Type} : List (String × List ρ) → String → ρ → List (String × List ρ)
  | [], k, r => [(k, [r])]
  | (k', rs) :: rest, k, r =>
    if k' = k then (k', rs ++ [r]) :: rest else (k', rs) :: appendGroup rest k r

/-- The grouping loop of `process_batch` (lines 252-268) over the extracted
`batch_data`, with `build` standing for `cypher_builder.build_queries`. -/
def build_groups {ρ ρ' : Type} (build : String → ρ → BuildResult ρ') (rowTruthy : ρ' → Bool)
    (bd : List (String × ρ)) : List (String × List ρ') :=
  bd.foldl
    (fun gs td =>
      (itemsOf rowTruthy (build td.1 td.2)).foldl (fun gs2 kr => appendGroup gs2 kr.1 kr.2) gs)
    []

/-- All `(batch_type, row)` pairs produced by the grouping loop, in the order the
loop visits them. -/
def flatItems {ρ ρ' : Type} (build : String → ρ → BuildResult ρ') (rowTruthy : ρ' → Bool)
    (bd : List (String × ρ)) : List (String × ρ') :=
  (bd.map (fun td => itemsOf rowTruthy (build td.1 td.2))).flatten

/-- The rows stored for one entity kind (`batch_groups.get(kind, [])`). -/
def groupRows {ρ : Type} (gs : List (String × List ρ)) (kind : String) : List ρ :=
  (alookup gs kind).getD []

theorem groupRows_appendGroup {ρ : Type} (gs : List (String × List ρ)) (k : String) (r : ρ)
    (kind : String) :
    groupRows (appendGroup gs k r) kind =
      if kind = k then groupRows gs kind ++ [r] else groupRows gs kind := by
  induction gs with
  | nil =>
    by_cases h : kind = k
    · simp [appendGroup, groupRows, alookup, h]
    · simp [appendGroup, groupRows, alookup, h, Ne.symm h]
  | cons p rest ih =>
    obtain ⟨k', rs⟩ := p
    by_cases h1 : k' = k
    · subst h1
      by_cases h2 : kind = k'
      · subst h2
        simp [appendGroup, groupRows, alookup]
      · simp [appendGroup, groupRows, alookup, h2, Ne.symm h2]
    · by_cases h2 : k' = kind
      · subst h2
        simp [appendGroup, groupRows, alookup, h1, Ne.symm h1]
      · simp only [appendGroup, h1, if_false, groupRows, alookup, h2]
        exact ih

theorem groupRows_foldl_append {ρ : Type} (items : List (String × ρ)) :
    ∀ (gs : List (String × List ρ)) (kind : String),
      groupRows (items.foldl (fun gs2 kr => appendGroup gs2 kr.1 kr.2) gs) kind =
        groupRows gs kind ++ (items.filter (fun kr => kr.1 == kind)).map Prod.snd := by
  induction items with
  | nil => intro gs kind; simp
  | cons kr rest ih =>
    intro gs kind
    obtain ⟨k, r⟩ := kr
    by_cases h : k = kind
    · subst h
      simp only [List.foldl_cons, ih, groupRows_appendGroup, if_pos rfl, List.filter_cons,
        beq_self_eq_true, if_true, List.map_cons]
      simp
    · simp only [List.foldl_cons, ih, groupRows_appendGroup, List.filter_cons]
      have hb : ((k, r).1 == kind) = false := by
        simp [h]
      simp [hb, if_neg (fun hh : kind = k => h hh.symm)]

/-- Grouping preserves the order of the produced rows: for every kind, the rows
in the group are exactly the rows of the flattened build output for that kind,
in their order of production. -/
theorem build_groups_rows {ρ ρ' : Type} (build : String → ρ → BuildResult ρ')
    (rowTruthy : ρ' → Bool) (bd : List (String × ρ)) (kind : String) :
    groupRows (build_groups build rowTruthy bd) kind =
      ((flatItems build rowTruthy bd).filter (fun kr => kr.1 == kind)).map Prod.snd := by
  suffices h : ∀ gs : List (String × List ρ'),
      groupRows
        (bd.foldl
          (fun gs td =>
            (itemsOf rowTruthy (build td.1 td.2)).foldl
              (fun gs2 kr => appendGroup gs2 kr.1 kr.2) gs)
          gs) kind =
        groupRows gs kind
          ++ ((flatItems build rowTruthy bd).filter (fun kr => kr.1 == kind)).map Prod.snd by
    have := h []
    simpa [build_groups, groupRows, alookup] using this
  induction bd with
  | nil => intro gs; simp [flatItems]
  | cons td rest ih =>
    intro gs
    simp only [List.foldl_cons, ih, groupRows_foldl_append, flatItems, List.map_cons,
      List.flatten_cons, List.filter_append, List.map_append, List.append_assoc]

/-- Full result of one `BatchProcessor.process_batch` call (lines 209-280):
the extracted `batch_data`, the returned `items_flushed`, the buffer left
behind, and the `batch_groups` handed to the query executor. -/
structure BatchResult (ρ ρ' : Type) where
  batch_data : List (String × ρ)
  items_flushed : Nat
  buffer : List (String × List ρ)
  batch_groups : List (String × List ρ')

/-- The drain body of `BatchProcessor.process_batch` (lines 219-280), reached
only when the heartbeat guard of line 215 does not fire: early return 0 when
the buffer has no topics, otherwise the single-pass extraction followed by the
grouping loop.  `process_batch_call` models the full call including the
heartbeat path. -/
def process_batch {ρ ρ' : Type} (build : String → ρ → BuildResult ρ') (rowTruthy : ρ' → Bool)
    (maxB : Nat) (buffer : List (String × List ρ)) : BatchResult ρ ρ' :=
  if buffer.isEmpty then
    -- `if not topics_to_process: return 0`
    ⟨[], 0, buffer, []⟩
  else
    let r := extract_batch maxB buffer 0
    ⟨r.batch_data, r.items_flushed, r.buffer, build_groups build rowTruthy r.batch_data⟩

/-- Outcome of one full `BatchProcessor.process_batch` call: either the
heartbeat block raised, leaving the buffer untouched (`get_buffer_size` on
line 216 only reads existing entries), or the drain ran and returned. -/
inductive BatchCallResult (ρ ρ' : Type) where
  | raised (msg : String) (buffer : List (String × List ρ))
  | returned (result : BatchResult ρ ρ')

/-- `BatchProcessor.process_batch` (lines 209-280) including the heartbeat
block (lines 214-217): when `current_tick % 1000 == 0` the code reads the
buffer size and then evaluates `logger.debug(...)` — but `logger` is not
defined in batch_processor.py's module scope (the module's only import from
src.core.config is MAX_BATCH_SIZE, line 11; the import on line 61 is local to
`update_max_batch_size`), so this path raises NameError before any extraction
and returns no count.  Every other tick falls through to the drain modelled by
`process_batch`. -/
def process_batch_call {ρ ρ' : Type} (build : String → ρ → BuildResult ρ')
    (rowTruthy : ρ' → Bool) (maxB current_tick : Nat)
    (buffer : List (String × List ρ)) : BatchCallResult ρ ρ' :=
  if current_tick % 1000 = 0 then
    .raised "NameError: name logger is not defined" buffer
  else
    .returned (process_batch build rowTruthy maxB buffer)

theorem alookup_add_to_buffer_self {ρ : Type} :
    ∀ (l : List (String × List ρ)) (t : String) (d : ρ),
      alookup (add_to_buffer l t d) t = some ((alookup l t).getD [] ++ [d]) := by
  intro l
  induction l with
  | nil => intro t d; simp [add_to_buffer, alookup]
  | cons p rest ih =>
    intro t d
    obtain ⟨t', xs⟩ := p
    by_cases h : t' = t
    · subst h
      simp [add_to_buffer, alookup]
    · simp [add_to_buffer, alookup, h, ih]

/- ## Claims C1 and C8 -/

/-- C1 (the claim is FALSE of the code — code bug): `process_batch` opens with
a heartbeat block (lines 214-217) whose `logger.debug` call references the
undefined name `logger` (never imported at module scope in
batch_processor.py), so every call whose `current_tick` is a multiple of 1000
raises NameError before any extraction and returns no count — against the
claim's "returning a count equal to the number of items removed".  On every
other tick the drain behaves exactly as the claim states: at most
`max_batch_size` items removed in total, items taken only from the head of
each subject's queue in a single pass, a subject's entry deleted when it
becomes empty, and the returned count equal to the number of items removed. -/
theorem claim_C1 {ρ ρ' : Type} (build : String → ρ → BuildResult ρ') (rowTruthy : ρ' → Bool)
    (maxB current_tick : Nat) (buffer : List (String × List ρ))
    (hpos : 0 < maxB) (hnd : (buffer.map Prod.fst).Nodup) :
    (current_tick % 1000 = 0 →
      process_batch_call build rowTruthy maxB current_tick buffer
        = .raised "NameError: name logger is not defined" buffer) ∧
    (current_tick % 1000 ≠ 0 →
      process_batch_call build rowTruthy maxB current_tick buffer
        = .returned (process_batch build rowTruthy maxB buffer) ∧
      (process_batch build rowTruthy maxB buffer).items_flushed ≤ maxB ∧
      (process_batch build rowTruthy maxB buffer).items_flushed
        = (process_batch build rowTruthy maxB buffer).batch_data.length ∧
      totalBuffered buffer
        = (process_batch build rowTruthy maxB buffer).items_flushed
          + totalBuffered (process_batch build rowTruthy maxB buffer).buffer ∧
      ∀ t buf, (t, buf) ∈ buffer →
        ∃ k, k ≤ buf.length ∧
          (((process_batch build rowTruthy maxB buffer).batch_data.filter
              (fun p => p.1 == t)).map Prod.snd = buf.take k) ∧
          alookup (process_batch build rowTruthy maxB buffer).buffer t =
            (if k = buf.length ∧ 0 < buf.length then none else some (buf.drop k))) := by
  constructor
  · intro h0
    unfold process_batch_call
    rw [if_pos h0]
  refine fun h0 => ⟨by unfold process_batch_call; rw [if_neg h0], ?_⟩
  by_cases hemp : buffer.isEmpty
  · have hb : buffer = [] := List.isEmpty_iff.1 hemp
    subst hb
    refine ⟨by simp [process_batch], by simp [process_batch], by simp [process_batch, totalBuffered], ?_⟩
    intro t buf hm
    cases hm
  · have h1 : (process_batch build rowTruthy maxB buffer).items_flushed
        = (extract_batch maxB buffer 0).items_flushed := by
      simp [process_batch, hemp]
    have h2 : (process_batch build rowTruthy maxB buffer).batch_data
        = (extract_batch maxB buffer 0).batch_data := by
      simp [process_batch, hemp]
    have h3 : (process_batch build rowTruthy maxB buffer).buffer
        = (extract_batch maxB buffer 0).buffer := by
      simp [process_batch, hemp]
    refine ⟨?_, ?_, ?_, ?_⟩
    · rw [h1]
      exact extract_batch_flushed_le maxB buffer 0 (Nat.zero_le _)
    · rw [h1, h2]
      simpa using extract_batch_count maxB buffer 0
    · rw [h1, h3]
      have hc := extract_batch_conserves maxB buffer 0
      have hk := extract_batch_count maxB buffer 0
      omega
    · intro t buf hm
      rw [h2, h3]
      exact extract_batch_subject maxB buffer 0 hnd t buf hm

/-- Concrete two-subject buffer used by the batch-processing witnesses. -/
def demoBuffer : List (String × List Nat) := [("a", [1, 2, 3]), ("b", [4, 5])]

/-- Concrete builder used by the batch-processing witnesses. -/
def demoBuild : String → Nat → BuildResult Nat :=
  fun _ d => .many [("Frame", d), ("Camera", d)]

/-- Concrete row-truthiness used by the batch-processing witnesses. -/
def demoTruthy : Nat → Bool := fun _ => true

theorem claim_C1_witness :
    0 < 4 ∧ ((demoBuffer.map Prod.fst).Nodup) ∧ 1000 % 1000 = 0 ∧ 7 % 1000 ≠ 0 ∧
    (process_batch_call demoBuild demoTruthy 4 1000 demoBuffer
      = .raised "NameError: name logger is not defined" demoBuffer) ∧
    (process_batch_call demoBuild demoTruthy 4 7 demoBuffer
      = .returned (process_batch demoBuild demoTruthy 4 demoBuffer) ∧
    (process_batch demoBuild demoTruthy 4 demoBuffer).items_flushed ≤ 4 ∧
    (process_batch demoBuild demoTruthy 4 demoBuffer).items_flushed
      = (process_batch demoBuild demoTruthy 4 demoBuffer).batch_data.length ∧
    totalBuffered demoBuffer
      = (process_batch demoBuild demoTruthy 4 demoBuffer).items_flushed
        + totalBuffered (process_batch demoBuild demoTruthy 4 demoBuffer).buffer ∧
    ∀ t buf, (t, buf) ∈ demoBuffer →
      ∃ k, k ≤ buf.length ∧
        (((process_batch demoBuild demoTruthy 4 demoBuffer).batch_data.filter
            (fun p => p.1 == t)).map Prod.snd = buf.take k) ∧
        alookup (process_batch demoBuild demoTruthy 4 demoBuffer).buffer t =
          (if k = buf.length ∧ 0 < buf.length then none else some (buf.drop k))) :=
  ⟨by decide, by decide, by decide, by decide,
    (claim_C1 demoBuild demoTruthy 4 1000 demoBuffer (by decide) (by decide)).1 (by decide),
    (claim_C1 demoBuild demoTruthy 4 7 demoBuffer (by decide) (by decide)).2 (by decide)⟩

/-- C8: within a single drain, for every subject the items extracted by
`process_batch` appear in buffer order — a prefix (`take`) of the per-subject
queue, which `add_to_buffer` builds by appending each arrival at the tail — and
after the rows are grouped by entity kind, the relative order of rows within
each kind equals their order of production from the ordered `batch_data`. -/
theorem claim_C8 {ρ ρ' : Type} (build : String → ρ → BuildResult ρ') (rowTruthy : ρ' → Bool)
    (maxB : Nat) (buffer : List (String × List ρ))
    (hnd : (buffer.map Prod.fst).Nodup) :
    (∀ t d, alookup (add_to_buffer buffer t d) t = some ((alookup buffer t).getD [] ++ [d])) ∧
    (∀ t buf, (t, buf) ∈ buffer →
      ∃ k, k ≤ buf.length ∧
        (((process_batch build rowTruthy maxB buffer).batch_data.filter
            (fun p => p.1 == t)).map Prod.snd = buf.take k)) ∧
    (∀ kind,
      groupRows (process_batch build rowTruthy maxB buffer).batch_groups kind =
        ((flatItems build rowTruthy (process_batch build rowTruthy maxB buffer).batch_data).filter
            (fun kr => kr.1 == kind)).map Prod.snd) := by
  refine ⟨fun t d => alookup_add_to_buffer_self buffer t d, ?_, ?_⟩
  · intro t buf hm
    by_cases hemp : buffer.isEmpty
    · rw [List.isEmpty_iff.1 hemp] at hm
      cases hm
    · have h2 : (process_batch build rowTruthy maxB buffer).batch_data
          = (extract_batch maxB buffer 0).batch_data := by
        simp [process_batch, hemp]
      obtain ⟨k, hk, hfil, _⟩ := extract_batch_subject maxB buffer 0 hnd t buf hm
      exact ⟨k, hk, by rw [h2]; exact hfil⟩
  · intro kind
    by_cases hemp : buffer.isEmpty
    · simp [process_batch, hemp, groupRows, alookup, flatItems]
    · have h2 : (process_batch build rowTruthy maxB buffer).batch_data
          = (extract_batch maxB buffer 0).batch_data := by
        simp [process_batch, hemp]
      have h4 : (process_batch build rowTruthy maxB buffer).batch_groups
          = build_groups build rowTruthy (extract_batch maxB buffer 0).batch_data := by
        simp [process_batch, hemp]
      rw [h2, h4]
      exact build_groups_rows build rowTruthy (extract_batch maxB buffer 0).batch_data kind

theorem claim_C8_witness :
    ((demoBuffer.map Prod.fst).Nodup) ∧
    ((∀ t d, alookup (add_to_buffer demoBuffer t d) t
        = some ((alookup demoBuffer t).getD [] ++ [d])) ∧
    (∀ t buf, (t, buf) ∈ demoBuffer →
      ∃ k, k ≤ buf.length ∧
        (((process_batch demoBuild demoTruthy 3 demoBuffer).batch_data.filter
            (fun p => p.1 == t)).map Prod.snd = buf.take k)) ∧
    (∀ kind,
      groupRows (process_batch demoBuild demoTruthy 3 demoBuffer).batch_groups kind =
        ((flatItems demoBuild demoTruthy
            (process_batch demoBuild demoTruthy 3 demoBuffer).batch_data).filter
            (fun kr => kr.1 == kind)).map Prod.snd)) :=
  ⟨by decide, claim_C8 demoBuild demoTruthy 3 demoBuffer (by decide)⟩

/- ## QueryExecutor (src/src/processors/query_executor.py) -/

/-- One database write issued by `QueryExecutor.execute_queries`, tagged by the
branch of the `elif` chain (lines 33-326) that issues it. -/
inductive WriteStmt where
  | frameMergePooled        -- Frame UNWIND MERGE via execute_query_pooled
  | frameMerge              -- Frame UNWIND MERGE via execute_query
  | cameraMerge             -- Camera UNWIND MERGE
  | playerTrackCreate       -- PlayerTrack UNWIND CREATE + relationships
  | ballTrackCreate         -- BallTrack UNWIND CREATE + relationships
  | ptzStateCreate          -- PTZState UNWIND CREATE + relationships
  | camParamsCreate         -- CamParams UNWIND CREATE + relationships
  | cameraConfigMerge       -- one CameraConfig MERGE per row
  | fusionBallMerge         -- FusionBall3D singleton MERGE
  | fusionBallSceneRel      -- FusionBall3D HAS_BALL relationship query
  | fusedPlayerMerge        -- FusedPlayer UNWIND MERGE
  | fusedPlayerSceneRel     -- FusedPlayer HAS_PLAYER relationship query
  | intentMerge             -- Intent UNWIND MERGE + CameraConfig link
deriving DecidableEq, Repr

/-- The entity kind a write statement belongs to. -/
def kindOf : WriteStmt → String
  | .frameMergePooled => "Frame"
  | .frameMerge => "Frame"
  | .cameraMerge => "Camera"
  | .playerTrackCreate => "PlayerTrack"
  | .ballTrackCreate => "BallTrack"
  | .ptzStateCreate => "PTZState"
  | .camParamsCreate => "CamParams"
  | .cameraConfigMerge => "CameraConfigUpdate"
  | .fusionBallMerge => "FusionBall3D"
  | .fusionBallSceneRel => "FusionBall3D"
  | .fusedPlayerMerge => "FusedPlayer"
  | .fusedPlayerSceneRel => "FusedPlayer"
  | .intentMerge => "Intent"

/-- `processing_order` (query_executor.py line 26). -/
def processing_order : List String :=
  ["Frame", "Camera", "PlayerTrack", "BallTrack", "PTZState", "CamParams",
   "CameraConfigUpdate", "FusionBall3D", "FusedPlayer", "Intent"]

/-- `batch_groups.get(batch_type, [])` (line 29). -/
def bgGet {ρ : Type} (bg : List (String × List ρ)) (k : String) : List ρ :=
  (alookup bg k).getD []

/-- The writes the `elif` chain issues for one `batch_type` with its (nonempty)
row list: exactly one statement per branch, except `CameraConfigUpdate`, which
issues one `MERGE` per row (lines 256-271), and `FusionBall3D` / `FusedPlayer`,
which issue their main query plus a relationship query (lines 227-249, 277-300).
A `batch_type` matching no branch issues nothing. -/
def writesForKind {ρ : Type} (hasPooled : Bool) (k : String) (rows : List ρ) : List WriteStmt :=
  if k = "Frame" then [if hasPooled then .frameMergePooled else .frameMerge]
  else if k = "Camera" then [.cameraMerge]
  else if k = "PlayerTrack" then [.playerTrackCreate]
  else if k = "BallTrack" then [.ballTrackCreate]
  else if k = "PTZState" then [.ptzStateCreate]
  else if k = "CamParams" then [.camParamsCreate]
  else if k = "FusionBall3D" then [.fusionBallMerge, .fusionBallSceneRel]
  else if k = "CameraConfigUpdate" then rows.map (fun _ => .cameraConfigMerge)
  else if k = "FusedPlayer" then [.fusedPlayerMerge, .fusedPlayerSceneRel]
  else if k = "Intent" then [.intentMerge]
  else []

/-- `QueryExecutor.execute_queries` (lines 15-326): walk `processing_order`,
skip a kind whose row list is empty (`if not rows: continue`), and issue the
branch's writes for the rest. -/
def execute_queries {ρ : Type} (hasPooled : Bool) (bg : List (String × List ρ)) :
    List WriteStmt :=
  (processing_order.map (fun k =>
    if (bgGet bg k).isEmpty then [] else writesForKind hasPooled k (bgGet bg k))).flatten

set_option maxHeartbeats 800000 in
theorem kindOf_writesForKind {ρ : Type} (hasPooled : Bool) (k : String) (rows : List ρ) :
    ∀ w ∈ writesForKind hasPooled k rows, kindOf w = k := by
  intro w hw
  unfold writesForKind at hw
  split_ifs at hw with h1 h2 h3 h4 h5 h6 h7 h8 h9 h10 h11
  · simp only [List.mem_singleton] at hw
    subst hw
    simp [kindOf, h1]
  · simp only [List.mem_singleton] at hw
    subst hw
    simp [kindOf, h1]
  · simp only [List.mem_singleton] at hw
    subst hw
    simp [kindOf, h3]
  · simp only [List.mem_singleton] at hw
    subst hw
    simp [kindOf, h4]
  · simp only [List.mem_singleton] at hw
    subst hw
    simp [kindOf, h5]
  · simp only [List.mem_singleton] at hw
    subst hw
    simp [kindOf, h6]
  · simp only [List.mem_singleton] at hw
    subst hw
    simp [kindOf, h7]
  · rcases List.mem_cons.1 hw with rfl | hw
    · simp [kindOf, h8]
    · simp only [List.mem_singleton] at hw
      subst hw
      simp [kindOf, h8]
  · rcases List.mem_map.1 hw with ⟨r, _, rfl⟩
    simp [kindOf, h9]
  · rcases List.mem_cons.1 hw with rfl | hw
    · simp [kindOf, h10]
    · simp only [List.mem_singleton] at hw
      subst hw
      simp [kindOf, h10]
  · simp only [List.mem_singleton] at hw
    subst hw
    simp [kindOf, h11]
  · simp at hw

theorem writesForKind_ne_nil {ρ : Type} (hasPooled : Bool) (k : String) (rows : List ρ)
    (hk : k ∈ processing_order) (hr : rows ≠ []) :
    writesForKind hasPooled k rows ≠ [] := by
  fin_cases hk <;> simp [writesForKind, hr]

/-- Position of a kind in `processing_order`. -/
def orderIdx (k : String) : Nat := processing_order.findIdx (fun s => s == k)

theorem pairwise_of_all_eq {R : String → String → Prop} :
    ∀ (l : List String) (k : String), (∀ x ∈ l, x = k) → R k k → l.Pairwise R := by
  intro l
  induction l with
  | nil => intro k _ _; exact List.Pairwise.nil
  | cons x rest ih =>
    intro k hall hr
    have hx : x = k := hall x (List.mem_cons_self x rest)
    refine List.pairwise_cons.2 ⟨?_, ih k (fun y hy => hall y (List.mem_cons_of_mem x hy)) hr⟩
    intro y hy
    have hyk : y = k := hall y (List.mem_cons_of_mem x hy)
    rw [hx, hyk]
    exact hr

theorem pairwise_kinds_flatten {R : String → String → Prop} :
    ∀ (ks : List String) (f : String → List WriteStmt),
      (∀ k ∈ ks, ∀ w ∈ f k, kindOf w = k) →
      (∀ k ∈ ks, R k k) →
      ks.Pairwise R →
      ((ks.map f).flatten.map kindOf).Pairwise R := by
  intro ks
  induction ks with
  | nil => intro f _ _ _; simp
  | cons k rest ih =>
    intro f hf hrefl hR
    simp only [List.map_cons, List.flatten_cons, List.map_append]
    refine List.pairwise_append.2 ⟨?_, ?_, ?_⟩
    · refine pairwise_of_all_eq _ k ?_ (hrefl k (List.mem_cons_self k rest))
      intro x hx
      rcases List.mem_map.1 hx with ⟨w, hw, rfl⟩
      exact hf k (List.mem_cons_self k rest) w hw
    · exact ih f (fun k' hk' => hf k' (List.mem_cons_of_mem k hk'))
        (fun k' hk' => hrefl k' (List.mem_cons_of_mem k hk')) hR.of_cons
    · intro a ha b hb
      rcases List.mem_map.1 ha with ⟨w, hw, rfl⟩
      have haeq : kindOf w = k := hf k (List.mem_cons_self k rest) w hw
      rcases List.mem_map.1 hb with ⟨w', hw', rfl⟩
      rcases List.mem_flatten.1 hw' with ⟨s, hs, hws⟩
      rcases List.mem_map.1 hs with ⟨k', hk', rfl⟩
      have hbeq : kindOf w' = k' := hf k' (List.mem_cons_of_mem k hk') w' hws
      rw [haeq, hbeq]
      exact (List.pairwise_cons.1 hR).1 k' hk'

/-- C2: `execute_queries` issues the per-kind write statements in exactly the
fixed order Frame, Camera, PlayerTrack, BallTrack, PTZState, CamParams,
CameraConfigUpdate, FusionBall3D, FusedPlayer, Intent (the kinds of the issued
writes are monotone in `processing_order` position), skips any kind whose row
list is empty (a kind of the list receives a write iff its rows are nonempty),
and issues no write for any kind outside this list (every issued write's kind
is in `processing_order`). -/
theorem claim_C2 {ρ : Type} (hasPooled : Bool) (bg : List (String × List ρ)) :
    (∀ w ∈ execute_queries hasPooled bg, kindOf w ∈ processing_order) ∧
    (∀ k ∈ processing_order,
      ((∃ w ∈ execute_queries hasPooled bg, kindOf w = k) ↔ bgGet bg k ≠ [])) ∧
    ((execute_queries hasPooled bg).map kindOf).Pairwise
      (fun a b => orderIdx a ≤ orderIdx b) := by
  have hmem : ∀ w ∈ execute_queries hasPooled bg,
      ∃ k ∈ processing_order, ¬(bgGet bg k).isEmpty ∧ kindOf w = k := by
    intro w hw
    rcases List.mem_flatten.1 hw with ⟨s, hs, hws⟩
    rcases List.mem_map.1 hs with ⟨k, hk, rfl⟩
    by_cases he : (bgGet bg k).isEmpty
    · rw [if_pos he] at hws
      cases hws
    · rw [if_neg he] at hws
      exact ⟨k, hk, he, kindOf_writesForKind hasPooled k _ w hws⟩
  refine ⟨?_, ?_, ?_⟩
  · intro w hw
    rcases hmem w hw with ⟨k, hk, _, hkw⟩
    rw [hkw]
    exact hk
  · intro k hk
    constructor
    · rintro ⟨w, hw, hkw⟩
      rcases hmem w hw with ⟨k', hk', hne, hkw'⟩
      have hkk : k' = k := by rw [← hkw, hkw']
      subst hkk
      intro hnil
      rw [hnil] at hne
      simp at hne
    · intro hne
      have hne' : ¬(bgGet bg k).isEmpty := by
        simpa [List.isEmpty_iff] using hne
      have hwne : writesForKind hasPooled k (bgGet bg k) ≠ [] :=
        writesForKind_ne_nil hasPooled k (bgGet bg k) hk hne
      rcases List.exists_mem_of_ne_nil _ hwne with ⟨w, hw⟩
      refine ⟨w, ?_, kindOf_writesForKind hasPooled k _ w hw⟩
      refine List.mem_flatten.2 ⟨writesForKind hasPooled k (bgGet bg k), ?_, hw⟩
      refine List.mem_map.2 ⟨k, hk, ?_⟩
      rw [if_neg hne']
  · refine pairwise_kinds_flatten processing_order _ ?_ ?_ ?_
    · intro k _ w hw
      by_cases he : (bgGet bg k).isEmpty
      · rw [if_pos he] at hw
        cases hw
      · rw [if_neg he] at hw
        exact kindOf_writesForKind hasPooled k _ w hw
    · intro k _
      exact Nat.le_refl _
    · decide

/-- Concrete batch groups used by the query-executor witness: rows for Intent,
Frame and an unknown kind, plus an empty Camera group. -/
def demoGroups : List (String × List Nat) :=
  [("Intent", [7]), ("Frame", [1, 2]), ("Bogus", [9]), ("Camera", [])]

theorem claim_C2_witness :
    (∀ w ∈ execute_queries true demoGroups, kindOf w ∈ processing_order) ∧
    (∀ k ∈ processing_order,
      ((∃ w ∈ execute_queries true demoGroups, kindOf w = k) ↔ bgGet demoGroups k ≠ [])) ∧
    ((execute_queries true demoGroups).map kindOf).Pairwise
      (fun a b => orderIdx a ≤ orderIdx b) :=
  claim_C2 true demoGroups

/- ## UTC timestamps (model of datetime.isoformat on an aware UTC datetime) -/

/-- Decimal digit character. -/
def digitChar (n : Nat) : Char :=
  match n % 10 with
  | 0 => '0' | 1 => '1' | 2 => '2' | 3 => '3' | 4 => '4'
  | 5 => '5' | 6 => '6' | 7 => '7' | 8 => '8' | _ => '9'

def natCharsAux : Nat → Nat → List Char → List Char
  | 0, _, acc => acc
  | fuel + 1, n, acc =>
    if n < 10 then digitChar n :: acc
    else natCharsAux fuel (n / 10) (digitChar (n % 10) :: acc)

/-- Decimal representation of a natural number. -/
def natChars (n : Nat) : List Char := natCharsAux (n + 1) n []

/-- Zero-pad a decimal representation to `w` characters (printf `%0wd`). -/
def padTo (w n : Nat) : List Char :=
  List.replicate (w - (natChars n).length) '0' ++ natChars n

/-- Convert days since 1970-01-01 to a Gregorian civil date (year, month, day);
the standard `civil_from_days` algorithm used by CPython's `datetime` for the
dates this service can produce (year ≥ 1970). -/
def civilFromDays (z0 : Nat) : Nat × Nat × Nat :=
  let z := z0 + 719468
  let era := z / 146097
  let doe := z % 146097
  let yoe := (doe - doe / 1460 + doe / 36524 - doe / 146096) / 365
  let y := yoe + era * 400
  let doy := doe - (365 * yoe + yoe / 4 - yoe / 100)
  let mp := (5 * doy + 2) / 153
  let d := doy - (153 * mp + 2) / 5 + 1
  let m := if mp < 10 then mp + 3 else mp - 9
  (if m ≤ 2 then y + 1 else y, m, d)

/-- The characters of `datetime.isoformat()` before the UTC offset:
`YYYY-MM-DDTHH:MM:SS` plus `.ffffff` when the microsecond field is nonzero. -/
def isoChars (sec micro : Nat) : List Char :=
  let days := sec / 86400
  let rem := sec % 86400
  let ymd := civilFromDays days
  padTo 4 ymd.1 ++ ['-'] ++ padTo 2 ymd.2.1 ++ ['-'] ++ padTo 2 ymd.2.2
    ++ ['T'] ++ padTo 2 (rem / 3600) ++ [':'] ++ padTo 2 (rem % 3600 / 60)
    ++ [':'] ++ padTo 2 (rem % 60)
    ++ (if micro = 0 then [] else ['.'] ++ padTo 6 micro)

/-- `datetime.isoformat()` for an aware UTC datetime: the timestamp characters
followed by the `+00:00` offset. -/
def isoformatUTC (sec micro : Nat) : String :=
  String.mk (isoChars sec micro ++ ['+', '0', '0', ':', '0', '0'])

/-- Does the pattern occur at the start of the list (`str.startswith`)? -/
def startsWithL : List Char → List Char → Bool
  | [], _ => true
  | _ :: _, [] => false
  | p :: ps, c :: cs => p == c && startsWithL ps cs

def replaceLAux (pat rep : List Char) : Nat → List Char → List Char
  | 0, s => s
  | _ + 1, [] => []
  | fuel + 1, c :: rest =>
    if pat ≠ [] ∧ startsWithL pat (c :: rest) then
      rep ++ replaceLAux pat rep fuel ((c :: rest).drop pat.length)
    else
      c :: replaceLAux pat rep fuel rest

/-- Python `str.replace(pat, rep)`: scan left to right, replacing each
non-overlapping occurrence of `pat` (the empty-pattern corner case, which the
service never uses, is the identity here).  The scan consumes at least one
character per step, so `s.length` steps of fuel always suffice. -/
def replaceL (pat rep s : List Char) : List Char :=
  replaceLAux pat rep s.length s

/-- Python `pat in s` (substring containment). -/
def containsSub (s pat : List Char) : Bool :=
  match s with
  | [] => startsWithL pat []
  | _ :: rest => startsWithL pat s || containsSub rest pat

/-- `isoformat().replace('+00:00', 'Z')` — the timestamp formatting used
throughout the service. -/
def isoZ (sec micro : Nat) : String :=
  String.mk (replaceL ['+', '0', '0', ':', '0', '0'] ['Z'] (isoformatUTC sec micro).data)

theorem digitChar_ne_plus (n : Nat) : digitChar n ≠ '+' := by
  unfold digitChar
  split <;> decide

theorem natCharsAux_ne_plus :
    ∀ (fuel n : Nat) (acc : List Char), (∀ c ∈ acc, c ≠ '+') →
      ∀ c ∈ natCharsAux fuel n acc, c ≠ '+' := by
  intro fuel
  induction fuel with
  | zero => intro n acc hacc c hc; exact hacc c hc
  | succ fuel ih =>
    intro n acc hacc c hc
    unfold natCharsAux at hc
    by_cases h : n < 10
    · rw [if_pos h] at hc
      rcases List.mem_cons.1 hc with rfl | hc
      · exact digitChar_ne_plus n
      · exact hacc c hc
    · rw [if_neg h] at hc
      refine ih (n / 10) _ ?_ c hc
      intro c' hc'
      rcases List.mem_cons.1 hc' with rfl | hc'
      · exact digitChar_ne_plus (n % 10)
      · exact hacc c' hc'

theorem natChars_ne_plus (n : Nat) : ∀ c ∈ natChars n, c ≠ '+' :=
  natCharsAux_ne_plus (n + 1) n [] (by intro c hc; cases hc)

theorem padTo_ne_plus (w n : Nat) : ∀ c ∈ padTo w n, c ≠ '+' := by
  intro c hc
  rcases List.mem_append.1 hc with hc | hc
  · rw [List.eq_of_mem_replicate hc]
    decide
  · exact natChars_ne_plus n c hc

theorem isoChars_ne_plus (sec micro : Nat) : ∀ c ∈ isoChars sec micro, c ≠ '+' := by
  intro c hc
  unfold isoChars at hc
  simp only [List.mem_append] at hc
  rcases hc with (((((((((((h | h) | h) | h) | h) | h) | h) | h) | h) | h) | h) | h)
  · exact padTo_ne_plus _ _ c h
  · simp only [List.mem_singleton] at h
    subst h
    decide
  · exact padTo_ne_plus _ _ c h
  · simp only [List.mem_singleton] at h
    subst h
    decide
  · exact padTo_ne_plus _ _ c h
  · simp only [List.mem_singleton] at h
    subst h
    decide
  · exact padTo_ne_plus _ _ c h
  · simp only [List.mem_singleton] at h
    subst h
    decide
  · exact padTo_ne_plus _ _ c h
  · simp only [List.mem_singleton] at h
    subst h
    decide
  · exact padTo_ne_plus _ _ c h
  · by_cases hm : micro = 0
    · rw [if_pos hm] at h
      cases h
    · rw [if_neg hm] at h
      rcases List.mem_append.1 h with h | h
      · simp only [List.mem_singleton] at h
        subst h
        decide
      · exact padTo_ne_plus _ _ c h

theorem replaceLAux_nil (pat rep : List Char) (fuel : Nat) :
    replaceLAux pat rep fuel [] = [] := by
  cases fuel <;> rfl

theorem replaceLAux_plus_pattern :
    ∀ (a : List Char), (∀ c ∈ a, c ≠ '+') →
      ∀ fuel, (a ++ ['+', '0', '0', ':', '0', '0']).length ≤ fuel →
        replaceLAux ['+', '0', '0', ':', '0', '0'] ['Z'] fuel
            (a ++ ['+', '0', '0', ':', '0', '0'])
          = a ++ ['Z'] := by
  intro a
  induction a with
  | nil =>
    intro _ fuel hf
    simp only [List.nil_append, List.length_cons] at hf ⊢
    match fuel, hf with
    | n + 6, _ =>
      induction n with
      | zero => rfl
      | succ m _ =>
        show replaceLAux _ _ (m + 1 + 6) _ = _
        rw [show m + 1 + 6 = (m + 6) + 1 by omega]
        unfold replaceLAux
        rw [if_pos (by constructor <;> decide)]
        simp only [List.length_cons, List.length_nil, List.drop_succ_cons, List.drop_nil,
          List.drop_zero]
        rw [replaceLAux_nil]
        rfl
  | cons c a' ih =>
    intro hne fuel hf
    have hc : c ≠ '+' := hne c (List.mem_cons_self c a')
    simp only [List.cons_append, List.length_cons] at hf ⊢
    match fuel, hf with
    | n + 1, hf =>
      unfold replaceLAux
      rw [if_neg ?_]
      · rw [ih (fun x hx => hne x (List.mem_cons_of_mem c hx)) n (by
          simpa using Nat.lt_succ_iff.1 (Nat.lt_of_lt_of_le (Nat.lt_succ_of_le (Nat.le_refl _)) hf))]
      · rintro ⟨-, hsw⟩
        unfold startsWithL at hsw
        simp only [Bool.and_eq_true, beq_iff_eq] at hsw
        exact hc hsw.1.symm

theorem replaceL_plus_pattern (a : List Char) (h : ∀ c ∈ a, c ≠ '+') :
    replaceL ['+', '0', '0', ':', '0', '0'] ['Z'] (a ++ ['+', '0', '0', ':', '0', '0'])
      = a ++ ['Z'] := by
  unfold replaceL
  exact replaceLAux_plus_pattern a h _ (Nat.le_refl _)

theorem String_data_mk (l : List Char) : (String.mk l).data = l := rfl

theorem isoZ_getLast (sec micro : Nat) : (isoZ sec micro).data.getLast? = some 'Z' := by
  unfold isoZ isoformatUTC
  simp only [String_data_mk]
  rw [replaceL_plus_pattern (isoChars sec micro) (isoChars_ne_plus sec micro)]
  simp

/- ## CleanupManager (src/src/processors/cleanup_manager.py) -/

/-- The fixed sequence of cleanup statements issued by
`CleanupManager.cleanup_old_data_by_time` (lines 58-68), verbatim. -/
def cleanup_statements : List String :=
  ["MATCH (pt:PlayerTrack) WHERE pt.last_updated < $cutoff_timestamp DETACH DELETE pt",
   "MATCH (bt:BallTrack) WHERE bt.last_updated < $cutoff_timestamp DETACH DELETE bt",
   "MATCH (s:PTZState) WHERE s.timestamp < $cutoff_timestamp DETACH DELETE s",
   "MATCH (cp:CamParams) WHERE cp.timestamp < $cutoff_timestamp DETACH DELETE cp",
   "MATCH (f:Frame) WHERE f.timestamp < $cutoff_timestamp DETACH DELETE f",
   "MATCH (c:Camera) WHERE c.last_active_timestamp < $cutoff_timestamp DETACH DELETE c"]

/-- The ephemeral kinds, in cleanup order, with the age attribute each
statement filters on. -/
def ephemeralTargets : List (String × String) :=
  [("PlayerTrack", "last_updated"), ("BallTrack", "last_updated"),
   ("PTZState", "timestamp"), ("CamParams", "timestamp"),
   ("Frame", "timestamp"), ("Camera", "last_active_timestamp")]

/-- The persistent kinds that cleanup must never touch. -/
def persistentLabels : List String :=
  ["Scene_Descriptor", "CameraConfig", "FusedPlayer", "FusionBall3D", "Intent"]

/-- Static well-formedness of the cleanup statements: statement `i` targets the
`i`-th ephemeral kind via a `DETACH DELETE` filtered by that kind's age
attribute strictly below `$cutoff_timestamp`, and no statement mentions a
persistent label. -/
def cleanupStmtsWellFormed : Bool :=
  (cleanup_statements.length == ephemeralTargets.length) &&
  (List.zip cleanup_statements ephemeralTargets).all (fun st =>
    containsSub st.1.data (String.data (":" ++ st.2.1)) &&
    containsSub st.1.data (String.data ("." ++ st.2.2 ++ " < $cutoff_timestamp")) &&
    containsSub st.1.data (String.data "DETACH DELETE") &&
    persistentLabels.all (fun p => !containsSub st.1.data (String.data (":" ++ p))))

/-- The cutoff computation of `cleanup_old_data_by_time` (lines 29-35):
`cutoff_time = current_time - timedelta(seconds=rolling_window_seconds)`
followed by `cutoff_time.isoformat().replace('+00:00', 'Z')`.  Python's aware
UTC datetime carries an integer epoch second and a microsecond field; the
subtraction is exact, and `.toNat` is faithful for the non-negative cutoffs a
wall clock produces (the theorem assumes `0 ≤ nowSec - w`). -/
def cleanup_cutoff_timestamp (nowSec : Int) (nowMicro : Nat) (w : Int) : String :=
  isoZ (nowSec - w).toNat nowMicro

set_option maxHeartbeats 4000000 in
/-- C3: every DETACH DELETE statement issued by `cleanup_old_data_by_time`
targets only ephemeral kinds, in the fixed order PlayerTrack, BallTrack,
PTZState, CamParams, Frame, Camera, each filtered by its age attribute
(`last_updated` for tracks, `timestamp` for PTZState/CamParams/Frame,
`last_active_timestamp` for Camera) strictly below the cutoff now minus
`rolling_window_seconds` formatted as ISO-8601 UTC ending in `Z`; no statement
matches Scene_Descriptor, CameraConfig, FusedPlayer, FusionBall3D or Intent. -/
theorem claim_C3 :
    cleanupStmtsWellFormed = true ∧
    (∀ (nowSec w : Int) (nowMicro : Nat), 0 ≤ nowSec - w →
      (cleanup_cutoff_timestamp nowSec nowMicro w).data.getLast? = some 'Z') := by
  constructor
  · decide
  · intro nowSec w nowMicro _
    exact isoZ_getLast (nowSec - w).toNat nowMicro

theorem claim_C3_witness :
    (0 : Int) ≤ 1700000000 - 30 ∧
    (cleanup_cutoff_timestamp 1700000000 123456 30).data.getLast? = some 'Z' :=
  ⟨by decide, claim_C3.2 1700000000 30 123456 (by decide)⟩

/- ## Memgraph.execute_query (src/database/repository.py, lines 59-75) -/

/-- Outcome of one raw cursor execution against the database. -/
inductive DbAttempt (α : Type) where
  | ok (result : α)
  | err (msg : String)

/-- The retry loop of `Memgraph.execute_query`: `for attempt in range(max_retries)`
with the `except` clause retrying (after sleeping `retry_delay`) only when the
message contains "conflicting transactions" and `attempt < max_retries - 1`,
re-raising otherwise.  Falling off the loop returns Python `None` (`.ok none`).
Returns the outcome, the number of attempts made, and the sleeps performed. -/
def executeQueryLoop {α : Type} (runAttempt : Nat → DbAttempt α) (maxRetries : Nat)
    (retryDelay : ℚ) : List Nat → Nat → List ℚ → Except String (Option α) × Nat × List ℚ
  | [], attempts, sleeps => (.ok none, attempts, sleeps)
  | attempt :: restAttempts, attempts, sleeps =>
    match runAttempt attempt with
    | .ok r => (.ok (some r), attempts + 1, sleeps)
    | .err e =>
      if containsSub e.data "conflicting transactions".data ∧ attempt < maxRetries - 1 then
        executeQueryLoop runAttempt maxRetries retryDelay restAttempts (attempts + 1)
          (sleeps ++ [retryDelay])
      else (.error e, attempts + 1, sleeps)

/-- `Memgraph.execute_query` (lines 59-75): `max_retries = 1` ("Single retry
only for maximum speed") and `retry_delay = 0.001` (1 ms). -/
def memgraph_execute_query {α : Type} (runAttempt : Nat → DbAttempt α) :
    Except String (Option α) × Nat × List ℚ :=
  executeQueryLoop runAttempt 1 (1 / 1000) (List.range 1) 0 []

/-- C4 (the claim is FALSE of the code — code bug): because
`max_retries = 1`, the guard `attempt < max_retries - 1` is `0 < 0` on the only
iteration, so `execute_query` performs exactly one attempt, never sleeps, and
re-raises every error unchanged — including the "conflicting transactions"
class that the code's own comments (`Single retry only`, `1ms retry delay`) and
the spec say should be retried once after 1 ms. -/
theorem claim_C4 {α : Type} (runAttempt : Nat → DbAttempt α) :
    (memgraph_execute_query runAttempt).2.1 = 1 ∧
    (memgraph_execute_query runAttempt).2.2 = [] ∧
    (∀ e, runAttempt 0 = .err e → (memgraph_execute_query runAttempt).1 = .error e) := by
  have hrange : List.range 1 = [0] := rfl
  refine ⟨?_, ?_, ?_⟩
  · unfold memgraph_execute_query
    rw [hrange]
    cases h : runAttempt 0 with
    | ok r => simp [executeQueryLoop, h]
    | err e => simp [executeQueryLoop, h]
  · unfold memgraph_execute_query
    rw [hrange]
    cases h : runAttempt 0 with
    | ok r => simp [executeQueryLoop, h]
    | err e => simp [executeQueryLoop, h]
  · intro e he
    unfold memgraph_execute_query
    rw [hrange]
    simp [executeQueryLoop, he]

/-- A realistic Memgraph conflicting-transactions error message. -/
def conflictingErrorMsg : String :=
  "Cannot resolve conflicting transactions. Retry this transaction when the conflicting transaction is finished"

/-- A database that raises the conflicting-transactions error on every attempt. -/
def conflictAttempt : Nat → DbAttempt Unit := fun _ => .err conflictingErrorMsg

theorem claim_C4_witness :
    conflictAttempt 0 = .err conflictingErrorMsg ∧
    (memgraph_execute_query conflictAttempt).2.1 = 1 ∧
    (memgraph_execute_query conflictAttempt).2.2 = [] ∧
    (memgraph_execute_query conflictAttempt).1 = .error conflictingErrorMsg :=
  ⟨rfl, (claim_C4 conflictAttempt).1, (claim_C4 conflictAttempt).2.1,
    (claim_C4 conflictAttempt).2.2 conflictingErrorMsg rfl⟩

/- ## Cleanup retry control flow (cleanup_manager.py, lines 39-118) -/

/-- Outcome of one cleanup statement execution under `asyncio.wait_for`. -/
inductive StmtOutcome where
  | ok
  | timeout           -- asyncio.TimeoutError (line 79)
  | raised (msg : String)  -- any other exception (line 82)

/-- The inner statement loop (lines 71-84): run the statements in order; a
statement that times out or fails stops the loop (`break` on lines 81 and 84 —
both handlers catch the exception, so nothing propagates).  Returns the indices
of the statements that were attempted; structural recursion on the number of
statements left. -/
def sweepFrom (exec : Nat → StmtOutcome) : Nat → Nat → List Nat
  | 0, _ => []
  | left + 1, i =>
    match exec i with
    | .ok => i :: sweepFrom exec left (i + 1)
    | .timeout => [i]
    | .raised _ => [i]

/-- The body of one retry attempt (lines 44-103).  Every exception raised
inside it is caught by an inner handler: the Scene_Descriptor verifications
(lines 46-53 and 87-100) catch their own exceptions, and the statement loop
catches `asyncio.TimeoutError` and `Exception` per statement (lines 79-84) and
merely breaks.  The body therefore always reaches the `return` on line 103;
the second component — the exception escaping to the outer handler on line
105 — is always `none`. -/
def cleanupBody (exec : Nat → StmtOutcome) : List Nat × Option String :=
  (sweepFrom exec cleanup_statements.length 0, none)

/-- Trace of one `cleanup_old_data_by_time` call. -/
structure CleanupTrace where
  attemptsMade : Nat
  backoffSleeps : List ℚ
  statementsRun : List (Nat × Nat)  -- (attempt, statement index)
  completed : Bool                   -- reached the `return` on line 103

/-- Lowercase a Python string (`str.lower`, restricted to the ASCII error
messages the database produces). -/
def lowerStr (s : String) : List Char := s.data.map Char.toLower

/-- The outer retry loop (lines 43-118): `for attempt in range(max_retries)`
with `max_retries = 3`; an escaped "conflicting transaction" / "cannot
resolve" exception sleeps `base_delay * 2 ** attempt` and retries, any other
escaped exception ends the sweep (line 118).  Structural recursion on the
attempts left. -/
def cleanupRetryLoop (exec : Nat → Nat → StmtOutcome) (baseDelay : ℚ) :
    Nat → Nat → Nat → List ℚ → List (Nat × Nat) → CleanupTrace
  | 0, _, made, sleeps, ran => ⟨made, sleeps, ran, false⟩
  | left + 1, attempt, made, sleeps, ran =>
    let body := cleanupBody (exec attempt)
    let ran2 := ran ++ body.1.map (fun i => (attempt, i))
    match body.2 with
    | none => ⟨made + 1, sleeps, ran2, true⟩  -- `return` on line 103
    | some e =>
      if containsSub (lowerStr e) "conflicting transaction".data
          || containsSub (lowerStr e) "cannot resolve".data then
        if attempt < 3 - 1 then
          cleanupRetryLoop exec baseDelay left (attempt + 1) (made + 1)
            (sleeps ++ [baseDelay * 2 ^ attempt]) ran2
        else ⟨made + 1, sleeps, ran2, false⟩  -- retries exhausted (line 115)
      else ⟨made + 1, sleeps, ran2, false⟩    -- non-retryable error (line 118)

/-- `CleanupManager.cleanup_old_data_by_time`, control-flow view: the retry
loop started with `attempt = 0` over `max_retries = 3`. -/
def cleanup_old_data_by_time (exec : Nat → Nat → StmtOutcome) (baseDelay : ℚ) : CleanupTrace :=
  cleanupRetryLoop exec baseDelay 3 0 0 [] []

/-- C5 (the claim is FALSE of the code — code bug): whatever the statement
outcomes — including a "conflicting transaction" failure of any statement —
the per-statement handlers swallow the error, the body returns as if
successful, and the sweep makes exactly one attempt with no exponential
backoff: the outer retry machinery of lines 105-118 is unreachable. -/
theorem claim_C5 (exec : Nat → Nat → StmtOutcome) (baseDelay : ℚ) :
    (cleanup_old_data_by_time exec baseDelay).attemptsMade = 1 ∧
    (cleanup_old_data_by_time exec baseDelay).backoffSleeps = [] ∧
    (cleanup_old_data_by_time exec baseDelay).completed = true ∧
    (∀ p ∈ (cleanup_old_data_by_time exec baseDelay).statementsRun, p.1 = 0) := by
  refine ⟨rfl, rfl, rfl, ?_⟩
  intro p hp
  unfold cleanup_old_data_by_time cleanupRetryLoop cleanupBody at hp
  simp only [List.nil_append] at hp
  rcases List.mem_map.1 hp with ⟨i, _, rfl⟩
  rfl

/-- A cleanup run in which the very first statement hits the conflicting
transaction error class. -/
def conflictSweep : Nat → Nat → StmtOutcome := fun _ _ => .raised conflictingErrorMsg

theorem claim_C5_witness :
    (cleanup_old_data_by_time conflictSweep (1 / 10)).attemptsMade = 1 ∧
    (cleanup_old_data_by_time conflictSweep (1 / 10)).backoffSleeps = [] ∧
    (cleanup_old_data_by_time conflictSweep (1 / 10)).completed = true ∧
    (∀ p ∈ (cleanup_old_data_by_time conflictSweep (1 / 10)).statementsRun, p.1 = 0) :=
  claim_C5 conflictSweep (1 / 10)

/- ## CacheManager (src/src/utils/cache.py) -/

/-- JSON-like payloads flowing through the cache: Python `None`, `bool`, `int`,
`float` (modelled as an exact rational), `str`, `list` and `dict`. -/
inductive JVal where
  | null
  | bool (b : Bool)
  | int (n : Int)
  | num (q : ℚ)
  | str (s : String)
  | arr (xs : List JVal)
  | obj (kvs : List (String × JVal))

/-- Python `type(x)` distinctions over JSON payloads (`bool` is its own type,
distinct from `int`; `int` distinct from `float`). -/
def typeTag : JVal → Nat
  | .null => 0
  | .bool _ => 1
  | .int _ => 2
  | .num _ => 3
  | .str _ => 4
  | .arr _ => 5
  | .obj _ => 6

/-- Key membership in a Python dict. -/
def hasKey (kvs : List (String × JVal)) (k : String) : Bool :=
  kvs.any (fun kv => kv.1 == k)

/-- Python `a.keys() != b.keys()` compares the key views as sets. -/
def keysEq (xs ys : List (String × JVal)) : Bool :=
  xs.all (fun kv => hasKey ys kv.1) && ys.all (fun kv => hasKey xs kv.1)

/-- `b[k]` for a key known to be present; a Python dict has unique keys, so the
first match is the value (the `.null` default is unreachable under `keysEq`). -/
def dictGet (kvs : List (String × JVal)) (k : String) : JVal :=
  (alookup kvs k).getD JVal.null

/-- Python `a != b` for the scalar payloads that reach the final
`return a != b` of `_is_meaningfully_different` (the earlier branches having
handled dict, list and float, and the type check having made the types equal):
plain equality; mismatched constructors (unreachable there) are unequal, as in
Python. -/
def scalarNe : JVal → JVal → Bool
  | .null, .null => false
  | .bool b1, .bool b2 => b1 != b2
  | .int n1, .int n2 => n1 != n2
  | .str s1, .str s2 => s1 != s2
  | _, _ => true

mutual

/-- `CacheManager._is_meaningfully_different` (cache.py lines 16-40): type
mismatch is different; dicts compare key sets then recurse over the keys of
the first; lists compare lengths then zip element-wise; floats compare with
`abs(a - b) > tol`; everything else with `a != b`. -/
def isMeaningfullyDifferent (tol : ℚ) (a b : JVal) : Bool :=
  if typeTag a ≠ typeTag b then true
  else
    match a, b with
    | .obj xs, .obj ys => if ¬ keysEq xs ys then true else diffObj tol xs ys
    | .arr xs, .arr ys => if xs.length ≠ ys.length then true else diffArr tol xs ys
    | .num x, .num y => decide (|x - y| > tol)
    | a, b => scalarNe a b
termination_by sizeOf a

/-- The dict recursion of `_is_meaningfully_different`:
`for k in a: if self._is_meaningfully_different(a[k], b[k], tol): return True`. -/
def diffObj (tol : ℚ) (xs ys : List (String × JVal)) : Bool :=
  match xs with
  | [] => false
  | (k, v) :: rest => isMeaningfullyDifferent tol v (dictGet ys k) || diffObj tol rest ys
termination_by sizeOf xs

/-- The list recursion of `_is_meaningfully_different`:
`for v1, v2 in zip(a, b): if self._is_meaningfully_different(v1, v2, tol): return True`. -/
def diffArr (tol : ℚ) (xs ys : List JVal) : Bool :=
  match xs with
  | [] => false
  | x :: xs' =>
    match ys with
    | [] => false
    | y :: ys' => isMeaningfullyDifferent tol x y || diffArr tol xs' ys'
termination_by sizeOf xs

end

mutual

/-- Deep structural equality as the specification words it: values of different
types are different; mappings are compared by key set then recursively;
sequences element-wise by position; real numbers are equal when
`|a - b| ≤ tol`; other values by equality.  Stated independently of
`_is_meaningfully_different`, to be compared with it. -/
def deepEqSpec (tol : ℚ) (a b : JVal) : Bool :=
  if typeTag a ≠ typeTag b then false
  else
    match a, b with
    | .obj xs, .obj ys => keysEq xs ys && deepEqObj tol xs ys
    | .arr xs, .arr ys => (xs.length == ys.length) && deepEqArr tol xs ys
    | .num x, .num y => decide (|x - y| ≤ tol)
    | a, b => !scalarNe a b
termination_by sizeOf a

/-- Mapping values compared recursively over the keys of the first. -/
def deepEqObj (tol : ℚ) (xs ys : List (String × JVal)) : Bool :=
  match xs with
  | [] => true
  | (k, v) :: rest => deepEqSpec tol v (dictGet ys k) && deepEqObj tol rest ys
termination_by sizeOf xs

/-- Sequence elements compared position-wise. -/
def deepEqArr (tol : ℚ) (xs ys : List JVal) : Bool :=
  match xs with
  | [] => true
  | x :: xs' =>
    match ys with
    | [] => true
    | y :: ys' => deepEqSpec tol x y && deepEqArr tol xs' ys'
termination_by sizeOf xs

end

theorem sizeOf_JVal_pos (a : JVal) : 0 < sizeOf a := by
  cases a <;> simp

theorem deepEqSpec_eq_not_diff_rank (tol : ℚ) :
    ∀ n : Nat,
      (∀ a b : JVal, sizeOf a ≤ n → deepEqSpec tol a b = !isMeaningfullyDifferent tol a b) ∧
      (∀ (xs ys : List (String × JVal)), sizeOf xs ≤ n →
        deepEqObj tol xs ys = !diffObj tol xs ys) ∧
      (∀ (xs ys : List JVal), sizeOf xs ≤ n → deepEqArr tol xs ys = !diffArr tol xs ys) := by
  intro n
  induction n using Nat.strong_induction_on with
  | _ n IH =>
    refine ⟨?_, ?_, ?_⟩
    · intro a b hn
      cases a <;> cases b <;>
        first
          | (simp [deepEqSpec, isMeaningfullyDifferent, typeTag, scalarNe]; done)
          | skip
      case num.num x y =>
        simp only [deepEqSpec, isMeaningfullyDifferent, typeTag, ne_eq,
          not_true_eq_false, not_false_eq_true, if_neg, reduceIte]
        rw [← decide_not]
        exact decide_eq_decide.2 not_lt.symm
      case arr.arr xs ys =>
        simp only [deepEqSpec, isMeaningfullyDifferent, typeTag, ne_eq,
          not_true_eq_false, not_false_eq_true, if_neg, reduceIte]
        by_cases hl : xs.length = ys.length
        · have hsz : sizeOf xs < n := by
            have : sizeOf (JVal.arr xs) = 1 + sizeOf xs := by simp +arith
            omega
          simp [hl, (IH (sizeOf xs) hsz).2.2 xs ys (Nat.le_refl _)]
        · simp [hl]
      case obj.obj xs ys =>
        simp only [deepEqSpec, isMeaningfullyDifferent, typeTag, ne_eq,
          not_true_eq_false, not_false_eq_true, if_neg, reduceIte]
        by_cases hk : keysEq xs ys
        · have hsz : sizeOf xs < n := by
            have : sizeOf (JVal.obj xs) = 1 + sizeOf xs := by simp +arith
            omega
          simp [hk, (IH (sizeOf xs) hsz).2.1 xs ys (Nat.le_refl _)]
        · simp [hk]
    · intro xs ys hn
      cases xs with
      | nil =>
        rw [deepEqObj, diffObj]
        rfl
      | cons kv rest =>
        obtain ⟨k, v⟩ := kv
        rw [deepEqObj, diffObj]
        have h1 : sizeOf v < n := by
          have : sizeOf ((k, v) :: rest) = 1 + (1 + sizeOf k + sizeOf v) + sizeOf rest := by
            simp +arith
          omega
        have h2 : sizeOf rest < n := by
          have : sizeOf ((k, v) :: rest) = 1 + (1 + sizeOf k + sizeOf v) + sizeOf rest := by
            simp +arith
          omega
        rw [(IH (sizeOf v) h1).1 v (dictGet ys k) (Nat.le_refl _),
          (IH (sizeOf rest) h2).2.1 rest ys (Nat.le_refl _)]
        simp
    · intro xs ys hn
      cases xs with
      | nil =>
        simp only [deepEqArr, diffArr]
        rfl
      | cons x xs' =>
        cases ys with
        | nil =>
          simp only [deepEqArr, diffArr]
          rfl
        | cons y ys' =>
          simp only [deepEqArr, diffArr]
          have h1 : sizeOf x < n := by
            have : sizeOf (x :: xs') = 1 + sizeOf x + sizeOf xs' := by simp +arith
            omega
          have h2 : sizeOf xs' < n := by
            have : sizeOf (x :: xs') = 1 + sizeOf x + sizeOf xs' := by simp +arith
            have := sizeOf_JVal_pos x
            omega
          rw [(IH (sizeOf x) h1).1 x y (Nat.le_refl _),
            (IH (sizeOf xs') h2).2.2 xs' ys' (Nat.le_refl _)]
          simp

theorem deepEqSpec_eq_not_diff (tol : ℚ) (a b : JVal) :
    deepEqSpec tol a b = !isMeaningfullyDifferent tol a b :=
  (deepEqSpec_eq_not_diff_rank tol (sizeOf a)).1 a b (Nat.le_refl _)

/-- Python `x is None` on a JSON payload. -/
def isNull : JVal → Bool
  | .null => true
  | _ => false

/-- `CacheManager.has_changed` (cache.py lines 50-56), returning the value and
the cache afterwards.  `self._cache.get(topic)` yields Python `None` both when
the key is absent and when the stored value is JSON null, so the model defaults
the lookup to `JVal.null` and `last is not None` becomes `!isNull last`. -/
def has_changed (cache : List (String × JVal)) (topic : String) (newData : JVal)
    (tol : ℚ) : Bool × List (String × JVal) :=
  let last := (alookup cache topic).getD JVal.null
  if !isNull last && !isMeaningfullyDifferent tol last newData then (false, cache)
  else (true, aset cache topic newData)

/-- `CacheManager.has_meaningful_change_sync` (cache.py lines 75-81): the same
body as `has_changed`. -/
def has_meaningful_change_sync (cache : List (String × JVal)) (topic : String)
    (newData : JVal) (tol : ℚ) : Bool × List (String × JVal) :=
  let last := (alookup cache topic).getD JVal.null
  if !isNull last && !isMeaningfullyDifferent tol last newData then (false, cache)
  else (true, aset cache topic newData)

/-- C6 counterexample: the subject stores JSON null and the new payload is the
deep-structurally equal null, yet `has_changed` returns true (the claim says it
must return false), because `last is not None` conflates a stored null with an
absent entry. -/
theorem claim_C6_counterexample :
    alookup [("ptzinfo.cam1", JVal.null)] "ptzinfo.cam1" = some JVal.null ∧
    deepEqSpec (1 / 100) JVal.null JVal.null = true ∧
    (has_changed [("ptzinfo.cam1", JVal.null)] "ptzinfo.cam1" JVal.null (1 / 100)).1
      = true := by
  refine ⟨rfl, ?_, rfl⟩
  simp [deepEqSpec, typeTag, scalarNe]

/-- C6 as amended: for every subject whose stored payload is non-null,
`has_changed` returns false and leaves the cache unchanged exactly when the new
payload is deep-structurally equal to the stored one (types equal, mappings by
key set then recursively, sequences element-wise, reals within `tol`), and
otherwise replaces the stored payload with the new one and returns true.  (The
unamended claim fails only when the stored payload is JSON null, which the
cache treats like an absent entry — see the counterexample.) -/
theorem claim_C6 (cache : List (String × JVal)) (topic : String) (stored d : JVal)
    (tol : ℚ) (hst : alookup cache topic = some stored) (hnn : isNull stored = false) :
    (deepEqSpec tol stored d = true → has_changed cache topic d tol = (false, cache)) ∧
    (deepEqSpec tol stored d = false →
      has_changed cache topic d tol = (true, aset cache topic d)) := by
  have heq := deepEqSpec_eq_not_diff tol stored d
  constructor
  · intro hdeq
    rw [hdeq] at heq
    have hdiff : isMeaningfullyDifferent tol stored d = false := by
      cases h : isMeaningfullyDifferent tol stored d
      · rfl
      · rw [h] at heq
        simp at heq
    unfold has_changed
    rw [hst]
    simp [hnn, hdiff]
  · intro hdeq
    rw [hdeq] at heq
    have hdiff : isMeaningfullyDifferent tol stored d = true := by
      cases h : isMeaningfullyDifferent tol stored d
      · rw [h] at heq
        simp at heq
      · rfl
    unfold has_changed
    rw [hst]
    simp [hnn, hdiff]

theorem claim_C6_witness :
    alookup [("ptzinfo.cam1", JVal.int 1)] "ptzinfo.cam1" = some (JVal.int 1) ∧
    isNull (JVal.int 1) = false ∧
    ((deepEqSpec (1 / 100) (JVal.int 1) (JVal.int 1) = true →
        has_changed [("ptzinfo.cam1", JVal.int 1)] "ptzinfo.cam1" (JVal.int 1) (1 / 100)
          = (false, [("ptzinfo.cam1", JVal.int 1)])) ∧
      (deepEqSpec (1 / 100) (JVal.int 1) (JVal.int 1) = false →
        has_changed [("ptzinfo.cam1", JVal.int 1)] "ptzinfo.cam1" (JVal.int 1) (1 / 100)
          = (true, aset [("ptzinfo.cam1", JVal.int 1)] "ptzinfo.cam1" (JVal.int 1)))) :=
  ⟨rfl, rfl,
    claim_C6 [("ptzinfo.cam1", JVal.int 1)] "ptzinfo.cam1" (JVal.int 1) (JVal.int 1)
      (1 / 100) rfl rfl⟩

/-- C10: for every subject with no stored payload in the cache, `has_changed`
and `has_meaningful_change_sync` return true and store the payload — the first
message seen on any subject is never suppressed, regardless of its content or
the tolerance. -/
theorem claim_C10 (cache : List (String × JVal)) (topic : String) (d : JVal) (tol : ℚ)
    (habs : alookup cache topic = none) :
    has_changed cache topic d tol = (true, aset cache topic d) ∧
    has_meaningful_change_sync cache topic d tol = (true, aset cache topic d) ∧
    alookup (aset cache topic d) topic = some d := by
  refine ⟨?_, ?_, alookup_aset_self cache topic d⟩
  · unfold has_changed
    rw [habs]
    simp [isNull]
  · unfold has_meaningful_change_sync
    rw [habs]
    simp [isNull]

theorem claim_C10_witness :
    alookup ([] : List (String × JVal)) "all_tracks.cam2" = none ∧
    (has_changed [] "all_tracks.cam2" (JVal.num (1 / 2)) (1 / 1000)
        = (true, aset [] "all_tracks.cam2" (JVal.num (1 / 2))) ∧
      has_meaningful_change_sync [] "all_tracks.cam2" (JVal.num (1 / 2)) (1 / 1000)
        = (true, aset [] "all_tracks.cam2" (JVal.num (1 / 2))) ∧
      alookup (aset [] "all_tracks.cam2" (JVal.num (1 / 2))) "all_tracks.cam2"
        = some (JVal.num (1 / 2))) :=
  ⟨rfl, claim_C10 [] "all_tracks.cam2" (JVal.num (1 / 2)) (1 / 1000) rfl⟩

/- ## CypherBuilder (src/src/processors/cypher_builder.py) -/

/-- `CypherBuilder.ensure_properties` (lines 43-49):
`{k: data.get(k, v) if data.get(k) is not None else v for k, v in defaults.items()}` —
one entry per defaults key, taking the payload value when it is present and not
null, and the default otherwise. -/
def ensure_properties (data defaults : List (String × JVal)) : List (String × JVal) :=
  defaults.map (fun kv =>
    (kv.1,
      match alookup data kv.1 with
      | some v => if isNull v then kv.2 else v
      | none => kv.2))

/-- Value selection of `ensure_properties`: present-and-non-null payload values
win, otherwise the default. -/
theorem ensure_properties_values (data : List (String × JVal)) :
    ∀ defaults : List (String × JVal), (defaults.map Prod.fst).Nodup →
      ∀ k dv, (k, dv) ∈ defaults →
        ((alookup data k = none ∨ alookup data k = some JVal.null) →
          alookup (ensure_properties data defaults) k = some dv) ∧
        (∀ v, alookup data k = some v → isNull v = false →
          alookup (ensure_properties data defaults) k = some v) := by
  intro defaults
  induction defaults with
  | nil => intro _ k dv hm; cases hm
  | cons kv rest ih =>
    intro hnd k dv hm
    obtain ⟨k', dv'⟩ := kv
    simp only [List.map_cons, List.nodup_cons] at hnd
    rcases List.mem_cons.1 hm with heq | hmem
    · injection heq with h1 h2
      subst h1
      subst h2
      constructor
      · rintro (hd | hd) <;> simp [ensure_properties, alookup, hd, isNull]
      · intro v hv hvn
        simp [ensure_properties, alookup, hv, hvn]
    · have hne : k' ≠ k := by
        intro h
        exact hnd.1 (h ▸ List.mem_map.2 ⟨(k, dv), hmem, rfl⟩)
      have := ih hnd.2 k dv hmem
      constructor
      · intro hd
        simpa [ensure_properties, alookup, hne] using this.1 hd
      · intro v hv hvn
        simpa [ensure_properties, alookup, hne] using this.2 v hv hvn

/-- C9: `ensure_properties` returns a mapping whose key set (and order) is
exactly that of the defaults: payload keys outside the defaults are dropped,
and a key whose payload value is absent or null takes the default value, so
every row of a given kind has the same column shape. -/
theorem claim_C9 (data defaults : List (String × JVal))
    (hnd : (defaults.map Prod.fst).Nodup) :
    ((ensure_properties data defaults).map Prod.fst = defaults.map Prod.fst) ∧
    (∀ k, k ∉ defaults.map Prod.fst → alookup (ensure_properties data defaults) k = none) ∧
    (∀ k dv, (k, dv) ∈ defaults →
      ((alookup data k = none ∨ alookup data k = some JVal.null) →
        alookup (ensure_properties data defaults) k = some dv) ∧
      (∀ v, alookup data k = some v → isNull v = false →
        alookup (ensure_properties data defaults) k = some v)) := by
  have hkeys : (ensure_properties data defaults).map Prod.fst = defaults.map Prod.fst := by
    simp [ensure_properties]
  refine ⟨hkeys, ?_, ensure_properties_values data defaults hnd⟩
  intro k hk
  refine alookup_eq_none_of_not_mem_keys ?_
  rw [hkeys]
  exact hk

/-- A concrete defaults table and payload for the `ensure_properties` witness. -/
def demoDefaults : List (String × JVal) :=
  [("panposition", JVal.num 0), ("tiltposition", JVal.num 0), ("zoomposition", JVal.int 0)]

/-- Payload with one present key, one null key, and one key outside the defaults. -/
def demoPayload : List (String × JVal) :=
  [("panposition", JVal.num (7 / 2)), ("tiltposition", JVal.null), ("extra", JVal.int 42)]

theorem claim_C9_witness :
    ((demoDefaults.map Prod.fst).Nodup) ∧
    (((ensure_properties demoPayload demoDefaults).map Prod.fst = demoDefaults.map Prod.fst) ∧
    (∀ k, k ∉ demoDefaults.map Prod.fst →
      alookup (ensure_properties demoPayload demoDefaults) k = none) ∧
    (∀ k dv, (k, dv) ∈ demoDefaults →
      ((alookup demoPayload k = none ∨ alookup demoPayload k = some JVal.null) →
        alookup (ensure_properties demoPayload demoDefaults) k = some dv) ∧
      (∀ v, alookup demoPayload k = some v → isNull v = false →
        alookup (ensure_properties demoPayload demoDefaults) k = some v))) :=
  ⟨by decide, claim_C9 demoPayload demoDefaults (by decide)⟩

/-- The two timestamp-bearing keys of a payload as `get_timestamp_for_entity`
reads them: `data["timestamp"]` (a string) and `data["last_updated"]`
(epoch seconds). -/
structure TsPayload where
  timestamp : Option String
  last_updated : Option Int

/-- Python truthiness of `self.system_timestamp` (`None` before any batch,
otherwise a string). -/
def sysTruthy : Option String → Bool
  | none => false
  | some s => !s.isEmpty

/-- `CypherBuilder.get_timestamp_for_entity` (lines 55-69): the payload's
`timestamp` if the key is present; else `last_updated` epoch seconds converted
with `datetime.fromtimestamp(·, tz=utc).isoformat().replace('+00:00', 'Z')`
(microsecond 0 for an integer epoch second; `.toNat` is exact for the
non-negative epochs the service sees); else the batch `system_timestamp` when
set and truthy; else the current wall clock in the same format. -/
def get_timestamp_for_entity (system_timestamp : Option String) (nowSec nowMicro : Nat)
    (data : TsPayload) (fallback_to_system : Bool) : String :=
  match data.timestamp with
  | some s => s
  | none =>
    match data.last_updated with
    | some u => isoZ u.toNat 0
    | none =>
      if fallback_to_system && sysTruthy system_timestamp then
        system_timestamp.getD ""
      else
        isoZ nowSec nowMicro

/-- C7: the row timestamp is selected by this precedence: the payload's
`timestamp` string when the key is present; else the payload's `last_updated`
epoch seconds converted to ISO-8601 UTC ending in Z; else the batch's
`system_timestamp` when one has been set (set means non-None and non-empty);
else the current wall clock in ISO-8601 UTC ending in Z. -/
theorem claim_C7 (sys : Option String) (nowSec nowMicro : Nat) (d : TsPayload) :
    (∀ s, d.timestamp = some s → get_timestamp_for_entity sys nowSec nowMicro d true = s) ∧
    (d.timestamp = none → ∀ u, d.last_updated = some u →
      get_timestamp_for_entity sys nowSec nowMicro d true = isoZ u.toNat 0 ∧
      (isoZ u.toNat 0).data.getLast? = some 'Z') ∧
    (d.timestamp = none → d.last_updated = none → sysTruthy sys = true →
      get_timestamp_for_entity sys nowSec nowMicro d true = sys.getD "") ∧
    (d.timestamp = none → d.last_updated = none → sysTruthy sys = false →
      get_timestamp_for_entity sys nowSec nowMicro d true = isoZ nowSec nowMicro ∧
      (isoZ nowSec nowMicro).data.getLast? = some 'Z') := by
  refine ⟨?_, ?_, ?_, ?_⟩
  · intro s hs
    unfold get_timestamp_for_entity
    rw [hs]
  · intro ht u hu
    unfold get_timestamp_for_entity
    rw [ht, hu]
    exact ⟨rfl, isoZ_getLast u.toNat 0⟩
  · intro ht hu hsys
    unfold get_timestamp_for_entity
    rw [ht, hu]
    simp [hsys]
  · intro ht hu hsys
    unfold get_timestamp_for_entity
    rw [ht, hu]
    simp [hsys]
    exact isoZ_getLast nowSec nowMicro

theorem claim_C7_witness :
    (TsPayload.mk none none).timestamp = none ∧
    (TsPayload.mk none none).last_updated = none ∧
    sysTruthy (some "2024-01-01T00:00:00Z") = true ∧
    get_timestamp_for_entity (some "2024-01-01T00:00:00Z") 1700000000 0
        (TsPayload.mk none none) true
      = (some "2024-01-01T00:00:00Z").getD "" :=
  ⟨rfl, rfl, rfl,
    (claim_C7 (some "2024-01-01T00:00:00Z") 1700000000 0 (TsPayload.mk none none)).2.2.1
      rfl rfl rfl⟩
